import Mathlib

/-!
Verification of the CIF-ER schema extractor and relationship-inference engine.

The definitions below are a shallow embedding of the TypeScript source:
`parseSQL` from `src/types.ts` (block extraction, balanced-parenthesis body
scan, primary-key resolution, per-line column parsing), the relationship
inference and highlight logic of the ER diagram component, and the
`handleParse` handler of the application shell.  Strings are modelled as
`List Char`; JavaScript regular expressions are modelled by the explicit
deterministic scanners they denote on these patterns.
-/

/-- The backquote character, used as an identifier delimiter in MySQL DDL. -/
def backtickChar : Char := Char.ofNat 96

/-- The single-quote character, used as a string delimiter in MySQL DDL. -/
def singleQuoteChar : Char := Char.ofNat 39

/-- JavaScript regular-expression class `\s` (whitespace), as used by
`String.prototype.trim` and the `\s` occurrences in the source regexes. -/
def jsSpace (c : Char) : Bool :=
  let n := c.toNat
  decide (n = 32 ∨ n = 9 ∨ n = 10 ∨ n = 13 ∨ n = 11 ∨ n = 12 ∨ n = 160 ∨
    n = 5760 ∨ (8192 ≤ n ∧ n ≤ 8202) ∨ n = 8232 ∨ n = 8233 ∨ n = 8239 ∨
    n = 8287 ∨ n = 12288 ∨ n = 65279)

/-- JavaScript regular-expression class `\w`: ASCII letters, digits, `_`. -/
def isWordChar (c : Char) : Bool :=
  let n := c.toNat
  decide ((65 ≤ n ∧ n ≤ 90) ∨ (97 ≤ n ∧ n ≤ 122) ∨ (48 ≤ n ∧ n ≤ 57) ∨ n = 95)

/-- ASCII lower-casing of one character (JavaScript case-insensitive regex
matching of ASCII pattern letters never identifies a non-ASCII subject
character with an ASCII pattern character, so this is the exact test). -/
def asciiLowerChar (c : Char) : Char :=
  if 65 ≤ c.toNat ∧ c.toNat ≤ 90 then Char.ofNat (c.toNat + 32) else c

/-- ASCII upper-casing of one character, as `String.prototype.toUpperCase`
acts on the ASCII identifiers produced by the parser. -/
def asciiUpperChar (c : Char) : Char :=
  if 97 ≤ c.toNat ∧ c.toNat ≤ 122 then Char.ofNat (c.toNat - 32) else c

/-- `toUpperCase` on a whole string. -/
def asciiUpper (s : String) : String := String.mk (s.data.map asciiUpperChar)

/-- JavaScript `String.prototype.trim` on a character list. -/
def trimJS (cs : List Char) : List Char :=
  ((cs.dropWhile jsSpace).reverse.dropWhile jsSpace).reverse

/-- `String.prototype.split` with a single-character separator:
the list of (possibly empty) segments between occurrences of `sep`. -/
def splitOnChar (sep : Char) : List Char → List (List Char)
  | [] => [[]]
  | c :: cs =>
    if c = sep then [] :: splitOnChar sep cs
    else
      match splitOnChar sep cs with
      | s :: ss => (c :: s) :: ss
      | [] => [[c]]

/-- `String.prototype.startsWith` on character lists (pattern first). -/
def jsStartsWith : List Char → List Char → Bool
  | [], _ => true
  | _ :: _, [] => false
  | p :: ps, c :: cs => p = c && jsStartsWith ps cs

/-- Case-insensitive match of a literal (lower-case, ASCII) pattern at the
start of the input; returns the remaining input on success. -/
def matchCaseless : List Char → List Char → Option (List Char)
  | [], cs => some cs
  | _ :: _, [] => none
  | p :: ps, c :: cs => if asciiLowerChar c = p then matchCaseless ps cs else none

/-- Greedy match of `\s+` at the start of the input. -/
def matchSpaces1 : List Char → Option (List Char)
  | [] => none
  | c :: cs => if jsSpace c then some (cs.dropWhile jsSpace) else none

/-- Leftmost match of a start-anchored matcher anywhere in the input
(regular-expression search without anchors). -/
def scanFirst {α : Type} (f : List Char → Option α) : List Char → Option α
  | [] => none
  | c :: cs =>
    match f (c :: cs) with
    | some a => some a
    | none => scanFirst f cs

theorem dropWhile_length_le {α : Type} (p : α → Bool) :
    ∀ l : List α, (l.dropWhile p).length ≤ l.length := by
  intro l
  induction l with
  | nil => simp
  | cons c cs ih =>
    rw [List.dropWhile_cons]
    split
    · exact Nat.le_trans ih (Nat.le_succ _)
    · exact Nat.le_refl _

theorem matchCaseless_length {ps cs r : List Char}
    (h : matchCaseless ps cs = some r) : r.length ≤ cs.length := by
  induction ps generalizing cs with
  | nil => simp [matchCaseless] at h; simp [h]
  | cons p ps ih =>
    cases cs with
    | nil => simp [matchCaseless] at h
    | cons c cs =>
      simp only [matchCaseless] at h
      split at h
      · exact Nat.le_trans (ih h) (Nat.le_succ _)
      · exact absurd h (by simp)

theorem matchSpaces1_length {cs r : List Char}
    (h : matchSpaces1 cs = some r) : r.length < cs.length := by
  cases cs with
  | nil => simp [matchSpaces1] at h
  | cons c cs =>
    simp only [matchSpaces1] at h
    split at h
    · cases h
      exact Nat.lt_succ_of_le (dropWhile_length_le _ _)
    · exact absurd h (by simp)

/-- Match of the split pattern `/CREATE\s+TABLE/i` at the start of the input;
returns the remaining input after the match. -/
def matchCreateTable (cs : List Char) : Option (List Char) :=
  match matchCaseless "create".data cs with
  | none => none
  | some r1 =>
    match matchSpaces1 r1 with
    | none => none
    | some r2 => matchCaseless "table".data r2

theorem matchCreateTable_length {cs r : List Char}
    (h : matchCreateTable cs = some r) : r.length < cs.length := by
  unfold matchCreateTable at h
  cases h1 : matchCaseless "create".data cs with
  | none => simp [h1] at h
  | some r1 =>
    simp only [h1] at h
    cases h2 : matchSpaces1 r1 with
    | none => simp [h2] at h
    | some r2 =>
      simp only [h2] at h
      calc r.length ≤ r2.length := matchCaseless_length h
        _ < r1.length := matchSpaces1_length h2
        _ ≤ cs.length := matchCaseless_length h1

/-- Fuelled worker for the `sql.split(/CREATE\s+TABLE/i)` scan: walks the
input, emitting the accumulated segment at each match of the split pattern
and continuing after the match. -/
def splitCTF : Nat → List Char → List Char → List (List Char)
  | 0, _, acc => [acc.reverse]
  | fuel + 1, cs, acc =>
    match matchCreateTable cs with
    | some rest => acc.reverse :: splitCTF fuel rest []
    | none =>
      match cs with
      | [] => [acc.reverse]
      | c :: cs2 => splitCTF fuel cs2 (c :: acc)

/-- `sql.split(/CREATE\s+TABLE/i)` on a character list. -/
def splitCT (cs : List Char) (acc : List Char) : List (List Char) :=
  splitCTF (cs.length + 1) cs acc

theorem splitCTF_fuel {f1 f2 : Nat} :
    ∀ {cs acc : List Char}, cs.length < f1 → cs.length < f2 →
    splitCTF f1 cs acc = splitCTF f2 cs acc := by
  induction f1 generalizing f2 with
  | zero => intro cs acc h1 _; exact absurd h1 (Nat.not_lt_zero _)
  | succ f1 ih =>
    intro cs acc h1 h2
    cases f2 with
    | zero => exact absurd h2 (Nat.not_lt_zero _)
    | succ f2 =>
      simp only [splitCTF]
      cases hm : matchCreateTable cs with
      | some rest =>
        have hr : rest.length < cs.length := matchCreateTable_length hm
        exact congrArg (acc.reverse :: ·)
          (ih (Nat.lt_of_lt_of_le hr (Nat.lt_succ_iff.mp h1))
              (Nat.lt_of_lt_of_le hr (Nat.lt_succ_iff.mp h2)))
      | none =>
        cases cs with
        | nil => rfl
        | cons c cs2 =>
          have hl : cs2.length < f1 := by
            have := List.length_cons c cs2
            omega
          have hl2 : cs2.length < f2 := by
            have := List.length_cons c cs2
            omega
          exact ih hl hl2

/-- The defining recursion of the split scan: `splitCT` emits a segment at
each match of `CREATE\s+TABLE` and otherwise shifts one character. -/
theorem splitCT_eq (cs acc : List Char) :
    splitCT cs acc =
      match matchCreateTable cs with
      | some rest => acc.reverse :: splitCT rest []
      | none =>
        match cs with
        | [] => [acc.reverse]
        | c :: cs2 => splitCT cs2 (c :: acc) := by
  show splitCTF (cs.length + 1) cs acc = _
  simp only [splitCTF]
  cases hm : matchCreateTable cs with
  | some rest =>
    have hr : rest.length < cs.length := matchCreateTable_length hm
    exact congrArg (acc.reverse :: ·)
      (splitCTF_fuel hr (Nat.lt_succ_self _))
  | none =>
    cases cs with
    | nil => rfl
    | cons c cs2 => rfl

/-- One column of one table, as produced by `parseSQL`. -/
structure ColumnDefinition where
  name : String
  type : String
  comment : String
  isPrimaryKey : Bool
  isNullable : Bool
deriving DecidableEq, Repr

/-- One table, as produced by `parseSQL`. -/
structure TableDefinition where
  id : String
  name : String
  comment : String
  columns : List ColumnDefinition
deriving DecidableEq, Repr

/-- Match of the table-name pattern `/^\s*`(backtick)`?(\w+)`(backtick)`?/`
against the start of a block: optional whitespace, an optional backquote,
then one or more word characters (the captured name). -/
def matchName (cs : List Char) : Option String :=
  let cs1 := cs.dropWhile jsSpace
  let cs2 :=
    match cs1 with
    | c :: r => if c = backtickChar then r else cs1
    | [] => cs1
  let ws := cs2.takeWhile isWordChar
  if ws.isEmpty then none else some (String.mk ws)

/-- `block.indexOf('(')`: the characters after the first `(`,
or `none` when the block contains no `(`. -/
def splitAtFirstParen (cs : List Char) : Option (List Char) :=
  match cs.dropWhile (fun c => c ≠ '(') with
  | c :: r => if c = '(' then some r else none
  | [] => none

/-- The balanced-parenthesis scan of the body: starting just after the
first `(` with nesting count `n`, increment on `(`, decrement on `)`;
when the count first returns to zero, return the body scanned so far and
the remaining (trailing) characters.  `none` when the count never
returns to zero. -/
def scanBody : List Char → Nat → Option (List Char × List Char)
  | [], _ => none
  | c :: cs, n =>
    if c = '(' then
      match scanBody cs (n + 1) with
      | some r => some (c :: r.1, r.2)
      | none => none
    else if c = ')' then
      if n = 1 then some ([], cs)
      else
        match scanBody cs (n - 1) with
        | some r => some (c :: r.1, r.2)
        | none => none
    else
      match scanBody cs n with
      | some r => some (c :: r.1, r.2)
      | none => none

/-- The running value of the nesting counter after processing `cs`,
starting from `n`: `+1` on `(`, `-1` on `)`. -/
def parenCounter (cs : List Char) (n : Nat) : Nat :=
  cs.foldl (fun k c => if c = '(' then k + 1 else if c = ')' then k - 1 else k) n

/-- Match of `'...'` (a single-quoted literal with a non-empty body) at the
start of the input, returning the captured body (pattern `'([^']+)'`). -/
def matchQuoted (cs : List Char) : Option (List Char) :=
  match cs with
  | c :: rest =>
    if c = singleQuoteChar then
      let inner := rest.takeWhile (fun x => x ≠ singleQuoteChar)
      if inner.isEmpty then none
      else
        match rest.dropWhile (fun x => x ≠ singleQuoteChar) with
        | _ :: _ => some inner
        | [] => none
    else none
  | [] => none

/-- Match of the table-comment pattern `/COMMENT\s*=\s*'([^']+)'/i` at the
start of the input, returning the captured comment text. -/
def matchTCAt (cs : List Char) : Option (List Char) :=
  match matchCaseless "comment".data cs with
  | none => none
  | some r1 =>
    match r1.dropWhile jsSpace with
    | c :: r3 =>
      if c = '=' then matchQuoted (r3.dropWhile jsSpace) else none
    | [] => none

/-- First match of the table-comment pattern anywhere in the trailing text;
the empty string when there is no match. -/
def findTableComment (cs : List Char) : String :=
  match scanFirst matchTCAt cs with
  | some inner => String.mk inner
  | none => ""

/-- Match of `\(([^)]+)\)` at the start of the input, returning the
captured (non-empty) parenthesized text. -/
def matchParenCapture (cs : List Char) : Option (List Char) :=
  match cs with
  | c :: rest =>
    if c = '(' then
      let inner := rest.takeWhile (fun x => x ≠ ')')
      if inner.isEmpty then none
      else
        match rest.dropWhile (fun x => x ≠ ')') with
        | _ :: _ => some inner
        | [] => none
    else none
  | [] => none

/-- Match of the primary-key pattern `/PRIMARY KEY\s*\(([^)]+)\)/i` at the
start of the input, returning the captured column list. -/
def matchPKAt (cs : List Char) : Option (List Char) :=
  match matchCaseless "primary key".data cs with
  | none => none
  | some r1 => matchParenCapture (r1.dropWhile jsSpace)

/-- First match of the primary-key pattern anywhere in a table body. -/
def findPK (cs : List Char) : Option (List Char) := scanFirst matchPKAt cs

/-- The resolved primary-key column names of a table body: the captured
list of the first `PRIMARY KEY (...)` match, split on commas, trimmed,
with all backquote and single-quote characters removed; empty when the
body has no such clause. -/
def pkTokens (body : List Char) : List String :=
  match findPK body with
  | none => []
  | some cap =>
    (splitOnChar ',' cap).map
      (fun tok => String.mk ((trimJS tok).filter
        (fun c => c ≠ backtickChar ∧ c ≠ singleQuoteChar)))

/-- Match of the column-name pattern `/^`(backtick)`?(\w+)`(backtick)`?/`
against a (trimmed) line: returns the captured name and the characters
after the whole match. -/
def matchColName (line : List Char) : Option (String × List Char) :=
  let afterTick :=
    match line with
    | c :: r => if c = backtickChar then r else line
    | [] => line
  let ws := afterTick.takeWhile isWordChar
  if ws.isEmpty then none
  else
    let rest := afterTick.dropWhile isWordChar
    let rest2 :=
      match rest with
      | c :: r => if c = backtickChar then r else rest
      | [] => rest
    some (String.mk ws, rest2)

/-- Match of the type pattern `/^(\w+(?:\([^)]+\))?)/`: a word, optionally
followed directly by a non-empty parenthesized argument group. -/
def matchType (rem : List Char) : Option String :=
  let ws := rem.takeWhile isWordChar
  if ws.isEmpty then none
  else
    let rest := rem.dropWhile isWordChar
    match rest with
    | c :: r =>
      if c = '(' then
        let inner := r.takeWhile (fun x => x ≠ ')')
        if inner.isEmpty then some (String.mk ws)
        else
          match r.dropWhile (fun x => x ≠ ')') with
          | _ :: _ => some (String.mk (ws ++ '(' :: (inner ++ [')'])))
          | [] => some (String.mk ws)
      else some (String.mk ws)
    | [] => some (String.mk ws)

/-- Match of the column-comment pattern `/COMMENT\s+'([^']+)'/i` at the
start of the input. -/
def matchCCAt (cs : List Char) : Option (List Char) :=
  match matchCaseless "comment".data cs with
  | none => none
  | some r1 =>
    match r1 with
    | c :: _ => if jsSpace c then matchQuoted (r1.dropWhile jsSpace) else none
    | [] => none

/-- First match of the column-comment pattern anywhere in a line. -/
def findColComment (cs : List Char) : String :=
  match scanFirst matchCCAt cs with
  | some inner => String.mk inner
  | none => ""

/-- `/NOT NULL/i.test(line)`: case-insensitive substring test. -/
def containsNotNull (cs : List Char) : Bool :=
  (scanFirst (matchCaseless "not null".data) cs).isSome

/-- The structural keywords that make a (trimmed) body line be skipped. -/
def skipLine (line : List Char) : Bool :=
  jsStartsWith "PRIMARY KEY".data line ||
  jsStartsWith "KEY".data line ||
  jsStartsWith "INDEX".data line ||
  jsStartsWith "UNIQUE".data line ||
  jsStartsWith "CONSTRAINT".data line ||
  jsStartsWith "FOREIGN KEY".data line ||
  jsStartsWith "--".data line ||
  jsStartsWith "/*".data line ||
  jsStartsWith "PARTITION".data line

/-- The upper-cased candidate names that mark a line as a key/constraint
line even when the prefix test did not catch it. -/
def reservedColNames : List String :=
  ["KEY", "PRIMARY", "INDEX", "UNIQUE", "CONSTRAINT", "FOREIGN", "CHECK"]

/-- Parse of one raw line of a table body into a column definition, given
the resolved primary-key names; `none` when the line is skipped. -/
def parseLine (pks : List String) (rawLine : List Char) : Option ColumnDefinition :=
  let line := trimJS rawLine
  if line.isEmpty then none
  else if skipLine line then none
  else
    match matchColName line with
    | none => none
    | some (colName, rest2) =>
      if reservedColNames.contains (asciiUpper colName) then none
      else
        let remaining := trimJS rest2
        let colType := (matchType remaining).getD "unknown"
        some {
          name := colName
          type := colType
          comment := findColComment line
          isPrimaryKey := pks.contains colName
          isNullable := !(containsNotNull line) }

/-- The column parser: one pass over the body lines (split on newline),
collecting the parsed columns in line order. -/
def parseColumns (pks : List String) (body : List Char) : List ColumnDefinition :=
  (splitOnChar '\n' body).filterMap (parseLine pks)

/-- Processing of one candidate block: extract the table name, locate the
body between the first `(` and its balanced close, resolve primary keys,
parse columns and the trailing table comment; `none` when the block is
dropped. -/
def parseBlock (block : List Char) : Option TableDefinition :=
  match matchName block with
  | none => none
  | some tableName =>
    match splitAtFirstParen block with
    | none => none
    | some rest =>
      match scanBody rest 1 with
      | none => none
      | some (body, afterBody) =>
        some {
          id := tableName
          name := tableName
          comment := findTableComment afterBody
          columns := parseColumns (pkTokens body) body }

/-- The accumulating loop over candidate blocks (the `for` loop of
`parseSQL`, pushing each successfully parsed table). -/
def parseSQLBlocks : List (List Char) → List TableDefinition → List TableDefinition
  | [], acc => acc
  | b :: bs, acc =>
    match parseBlock b with
    | some t => parseSQLBlocks bs (acc ++ [t])
    | none => parseSQLBlocks bs acc

/-- `parseSQL` from `src/types.ts`: split the dump on `CREATE TABLE`
(case-insensitive), skip the preamble, and parse every candidate block. -/
def parseSQL (sql : String) : List TableDefinition :=
  parseSQLBlocks ((splitCT sql.data []).drop 1) []

theorem parenCounter_nil (n : Nat) : parenCounter [] n = n := rfl

theorem parenCounter_cons (c : Char) (cs : List Char) (n : Nat) :
    parenCounter (c :: cs) n =
      parenCounter cs (if c = '(' then n + 1 else if c = ')' then n - 1 else n) := rfl

theorem scanBody_spec :
    ∀ (cs : List Char) (n : Nat) (body after : List Char), 1 ≤ n →
      scanBody cs n = some (body, after) →
      cs = body ++ ')' :: after ∧
      (∀ p q : List Char, body = p ++ q → 1 ≤ parenCounter p n) ∧
      parenCounter body n = 1 := by
  intro cs
  induction cs with
  | nil => intro n body after _ h; simp [scanBody] at h
  | cons c cs ih =>
    intro n body after hn h
    simp only [scanBody] at h
    split at h
    case isTrue hc =>
      cases hr : scanBody cs (n + 1) with
      | none => rw [hr] at h; exact Option.noConfusion h
      | some r =>
        obtain ⟨b2, a2⟩ := r
        rw [hr] at h
        have h2 := Option.some.inj h
        have hb : body = c :: b2 := (congrArg Prod.fst h2).symm
        have ha : after = a2 := (congrArg Prod.snd h2).symm
        subst hb; subst ha
        obtain ⟨hcs, hpre, hcount⟩ := ih _ _ _ (by omega) hr
        refine ⟨by rw [hcs]; rfl, ?_, ?_⟩
        · intro p q hpq
          cases p with
          | nil => simpa [parenCounter_nil] using hn
          | cons x p2 =>
            injection hpq with hx hb2
            subst hx
            rw [parenCounter_cons, if_pos hc]
            exact hpre p2 q hb2
        · rw [parenCounter_cons, if_pos hc]
          exact hcount
    case isFalse hc =>
      split at h
      case isTrue hc2 =>
        split at h
        case isTrue hone =>
          injection h with h2
          injection h2 with hb ha
          subst hone
          subst ha
          have hb2 : body = [] := hb.symm
          subst hb2
          refine ⟨by simp [hc2], ?_, by rfl⟩
          intro p q hpq
          have hp : p = [] := by
            cases p with
            | nil => rfl
            | cons x p2 => simp at hpq
          subst hp
          simp [parenCounter_nil]
        case isFalse hone =>
          cases hr : scanBody cs (n - 1) with
          | none => rw [hr] at h; exact Option.noConfusion h
          | some r =>
            obtain ⟨b2, a2⟩ := r
            rw [hr] at h
            have h2 := Option.some.inj h
            have hb : body = c :: b2 := (congrArg Prod.fst h2).symm
            have ha : after = a2 := (congrArg Prod.snd h2).symm
            subst hb; subst ha
            obtain ⟨hcs, hpre, hcount⟩ := ih _ _ _ (by omega) hr
            refine ⟨by rw [hcs, hc2]; rfl, ?_, ?_⟩
            · intro p q hpq
              cases p with
              | nil => simpa [parenCounter_nil] using hn
              | cons x p2 =>
                injection hpq with hx hb2
                subst hx
                rw [parenCounter_cons, if_neg hc, if_pos hc2]
                exact hpre p2 q hb2
            · rw [parenCounter_cons, if_neg hc, if_pos hc2]
              exact hcount
      case isFalse hc2 =>
        cases hr : scanBody cs n with
        | none => rw [hr] at h; exact Option.noConfusion h
        | some r =>
          obtain ⟨b2, a2⟩ := r
          rw [hr] at h
          have h2 := Option.some.inj h
          have hb : body = c :: b2 := (congrArg Prod.fst h2).symm
          have ha : after = a2 := (congrArg Prod.snd h2).symm
          subst hb; subst ha
          obtain ⟨hcs, hpre, hcount⟩ := ih _ _ _ hn hr
          refine ⟨by rw [hcs]; rfl, ?_, ?_⟩
          · intro p q hpq
            cases p with
            | nil => simpa [parenCounter_nil] using hn
            | cons x p2 =>
              injection hpq with hx hb2
              subst hx
              rw [parenCounter_cons, if_neg hc, if_neg hc2]
              exact hpre p2 q hb2
          · rw [parenCounter_cons, if_neg hc, if_neg hc2]
            exact hcount

theorem splitAtFirstParen_eq {block rest : List Char}
    (h : splitAtFirstParen block = some rest) :
    block = block.takeWhile (fun c => c ≠ '(') ++ '(' :: rest := by
  unfold splitAtFirstParen at h
  cases hd : block.dropWhile (fun c => c ≠ '(') with
  | nil => rw [hd] at h; exact absurd h (by simp)
  | cons c r =>
    rw [hd] at h
    by_cases hc : c = '('
    · simp only [if_pos hc] at h
      obtain rfl : r = rest := Option.some.injEq .. ▸ h
      conv_lhs => rw [← List.takeWhile_append_dropWhile (p := fun c => c ≠ '(') (l := block)]
      rw [hd, hc]
    · simp [hc] at h

theorem parseSQLBlocks_eq :
    ∀ (blocks : List (List Char)) (acc : List TableDefinition),
      parseSQLBlocks blocks acc = acc ++ blocks.filterMap parseBlock := by
  intro blocks
  induction blocks with
  | nil => intro acc; simp [parseSQLBlocks]
  | cons b bs ih =>
    intro acc
    simp only [parseSQLBlocks, List.filterMap_cons]
    cases hb : parseBlock b with
    | some t =>
      have h2 : (acc ++ [t]) ++ List.filterMap parseBlock bs =
          acc ++ t :: List.filterMap parseBlock bs := by
        rw [List.append_assoc]; rfl
      exact (ih (acc ++ [t])).trans h2
    | none => exact ih acc

theorem filterMap_length_le {α β : Type} (f : α → Option β) :
    ∀ l : List α, (l.filterMap f).length ≤ l.length := by
  intro l
  induction l with
  | nil => simp
  | cons a l ih =>
    rw [List.filterMap_cons]
    cases f a with
    | none => exact Nat.le_trans ih (Nat.le_succ _)
    | some b => simpa using ih

theorem parseLine_fields {pks : List String} {rawLine : List Char}
    {c : ColumnDefinition} (h : parseLine pks rawLine = some c) :
    c.isPrimaryKey = pks.contains c.name := by
  simp only [parseLine] at h
  split at h
  · exact Option.noConfusion h
  · split at h
    · exact Option.noConfusion h
    · cases hm : matchColName (trimJS rawLine) with
      | none => rw [hm] at h; exact Option.noConfusion h
      | some pr =>
        obtain ⟨colName, rest2⟩ := pr
        rw [hm] at h
        split at h
        · exact Option.noConfusion h
        · split at h
          · exact Option.noConfusion h
          · have h2 := Option.some.inj h
            rw [← h2]

theorem parseColumns_pk {pks : List String} {body : List Char}
    {c : ColumnDefinition} (h : c ∈ parseColumns pks body) :
    c.isPrimaryKey = pks.contains c.name := by
  obtain ⟨line, _, hline⟩ := List.mem_filterMap.mp h
  exact parseLine_fields hline

/-- The two view modes of the application shell. -/
inductive ViewMode where
  | EDITOR
  | SQL_INPUT
deriving DecidableEq, Repr

/-- The state held by the application shell: the SQL input text, the
currently displayed parsed tables, the view mode, and the error banner. -/
structure AppState where
  sqlInput : String
  parsedTables : List TableDefinition
  viewMode : ViewMode
  error : Option String
deriving DecidableEq, Repr

/-- The user-visible message when extraction finds no tables. -/
def noTablesMessage : String := "No tables found in the provided SQL."

/-- The user-visible message of the top-level catch branch. -/
def failedParseMessage : String := "Failed to parse SQL. Please check the syntax."

/-- The `handleParse` handler, as a transition on the application state,
parameterized by the outcome of the parsing pipeline (`Except.error`
being the caught-exception branch of the `try`/`catch`). -/
def handleParseResult (st : AppState) :
    Except Unit (List TableDefinition) → AppState
  | Except.ok tables =>
    if tables.length = 0 then { st with error := some noTablesMessage }
    else { st with parsedTables := tables, error := none,
                   viewMode := ViewMode.EDITOR }
  | Except.error _ => { st with error := some failedParseMessage }

/-- `handleParse`: run `parseSQL` on the current input.  The embedding of
`parseSQL` is a total function, so the pipeline outcome is always
`Except.ok`. -/
def handleParse (st : AppState) : AppState :=
  handleParseResult st (Except.ok (parseSQL st.sqlInput))

/-- C1: for every surviving CREATE TABLE block, the extracted body is the
substring strictly between the block's first `(` and the `)` at which the
nesting counter first returns to zero; consequently a column typed
`decimal(17, 2)` is captured with its full type string. -/
theorem claim_C1 :
    (∀ (block rest body after : List Char),
      splitAtFirstParen block = some rest →
      scanBody rest 1 = some (body, after) →
      block = block.takeWhile (fun c => c ≠ '(') ++ '(' :: (body ++ ')' :: after) ∧
      (∀ c ∈ block.takeWhile (fun c => c ≠ '('), c ≠ '(') ∧
      (∀ p q : List Char, body = p ++ q → 1 ≤ parenCounter p 1) ∧
      parenCounter body 1 = 1) ∧
    parseSQL "CREATE TABLE t (\n  PRICE decimal(17, 2) NOT NULL\n)" =
      [{ id := "t", name := "t", comment := "",
         columns := [{ name := "PRICE", type := "decimal(17, 2)", comment := "",
                       isPrimaryKey := false, isNullable := false }] }] := by
  constructor
  · intro block rest body after h1 h2
    obtain ⟨hcs, hpre, hcount⟩ := scanBody_spec rest 1 body after (Nat.le_refl 1) h2
    refine ⟨?_, ?_, hpre, hcount⟩
    · conv_lhs => rw [splitAtFirstParen_eq h1]
      rw [hcs]
    · intro c hc
      have := List.mem_takeWhile_imp hc
      simpa using this
  · decide

theorem claim_C1_witness :
    splitAtFirstParen "t (a(1)b) z".data = some "a(1)b) z".data ∧
    scanBody "a(1)b) z".data 1 = some ("a(1)b".data, " z".data) ∧
    parenCounter "a(1)b".data 1 = 1 :=
  ⟨by decide, by decide,
    (claim_C1.1 "t (a(1)b) z".data "a(1)b) z".data "a(1)b".data " z".data
      (by decide) (by decide)).2.2.2⟩

/-- C2: a column's `isPrimaryKey` flag is true exactly when its name is
among the comma-split, trimmed, quote-stripped tokens of the first
case-insensitive `PRIMARY KEY (...)` match of the table body; with no such
clause, every column of the table has `isPrimaryKey = false`. -/
theorem claim_C2 :
    ∀ (block : List Char) (t : TableDefinition) (rest body after : List Char),
      parseBlock block = some t →
      splitAtFirstParen block = some rest →
      scanBody rest 1 = some (body, after) →
      (∀ c ∈ t.columns, c.isPrimaryKey = (pkTokens body).contains c.name) ∧
      (findPK body = none → ∀ c ∈ t.columns, c.isPrimaryKey = false) := by
  intro block t rest body after hpb h1 h2
  simp only [parseBlock] at hpb
  split at hpb
  · exact Option.noConfusion hpb
  next nm hnm =>
    split at hpb
    · exact Option.noConfusion hpb
    next rest0 hrest0 =>
      rw [hrest0] at h1
      have hre : rest0 = rest := Option.some.inj h1
      subst hre
      split at hpb
      · exact Option.noConfusion hpb
      next body0 after0 hscan0 =>
        rw [hscan0] at h2
        have hpair := Option.some.inj h2
        have hbody : body0 = body := congrArg Prod.fst hpair
        subst hbody
        have ht := Option.some.inj hpb
        subst ht
        constructor
        · intro c hc
          exact parseColumns_pk hc
        · intro hnone c hc
          have hcpk := parseColumns_pk hc
          rw [hcpk]
          simp [pkTokens, hnone]

theorem claim_C2_witness :
    parseBlock " t1 (`A` int NOT NULL, PRIMARY KEY (`A`))".data =
      some { id := "t1", name := "t1", comment := "",
             columns := [{ name := "A", type := "int", comment := "",
                           isPrimaryKey := true, isNullable := false }] } ∧
    ({ name := "A", type := "int", comment := "", isPrimaryKey := true,
       isNullable := false } : ColumnDefinition).isPrimaryKey =
      (pkTokens "`A` int NOT NULL, PRIMARY KEY (`A`)".data).contains "A" :=
  ⟨by decide,
    (claim_C2 " t1 (`A` int NOT NULL, PRIMARY KEY (`A`))".data
      { id := "t1", name := "t1", comment := "",
        columns := [{ name := "A", type := "int", comment := "",
                      isPrimaryKey := true, isNullable := false }] }
      "`A` int NOT NULL, PRIMARY KEY (`A`))".data
      "`A` int NOT NULL, PRIMARY KEY (`A`)".data
      "".data (by decide) (by decide) (by decide)).1
      { name := "A", type := "int", comment := "", isPrimaryKey := true,
        isNullable := false }
      (by decide)⟩

/-- C7: a candidate block with no extractable leading identifier, no `(`,
or parentheses that never balance back to zero is dropped silently (its
`parseBlock` is `none`), the block loop is the filter-map of `parseBlock`
over all candidate blocks, and a dump with such malformed blocks still
yields every well-formed table. -/
theorem claim_C7 :
    (∀ (blocks : List (List Char)) (acc : List TableDefinition),
      parseSQLBlocks blocks acc = acc ++ blocks.filterMap parseBlock) ∧
    (∀ block : List Char, matchName block = none → parseBlock block = none) ∧
    (∀ block : List Char, splitAtFirstParen block = none → parseBlock block = none) ∧
    (∀ (block rest : List Char), splitAtFirstParen block = some rest →
      scanBody rest 1 = none → parseBlock block = none) ∧
    parseSQL "CREATE TABLE (x int) CREATE TABLE t2 (a int) CREATE TABLE t3 (b decimal(5 CREATE TABLE t4" =
      [{ id := "t2", name := "t2", comment := "",
         columns := [{ name := "a", type := "int", comment := "",
                       isPrimaryKey := false, isNullable := true }] }] := by
  refine ⟨parseSQLBlocks_eq, ?_, ?_, ?_, by decide⟩
  · intro block h
    simp [parseBlock, h]
  · intro block h
    simp only [parseBlock]
    cases hm : matchName block with
    | none => rfl
    | some nm => simp [h]
  · intro block rest h1 h2
    simp only [parseBlock]
    cases hm : matchName block with
    | none => rfl
    | some nm => simp [h1, h2]

theorem claim_C7_witness :
    splitAtFirstParen " t4 ".data = none ∧ parseBlock " t4 ".data = none :=
  ⟨by decide, claim_C7.2.2.1 " t4 ".data (by decide)⟩

/-- C8: when extraction yields zero tables, `handleParse` shows the
"no tables found" message and leaves the displayed schema unchanged; when
the pipeline throws, the generic "failed to parse" message is shown and the
schema is likewise kept. -/
theorem claim_C8 :
    ∀ st : AppState,
      (parseSQL st.sqlInput = [] →
        (handleParse st).parsedTables = st.parsedTables ∧
        (handleParse st).error = some noTablesMessage ∧
        (handleParse st).viewMode = st.viewMode) ∧
      ((handleParseResult st (Except.error ())).parsedTables = st.parsedTables ∧
       (handleParseResult st (Except.error ())).error = some failedParseMessage ∧
       (handleParseResult st (Except.error ())).viewMode = st.viewMode) := by
  intro st
  constructor
  · intro hz
    rw [handleParse]
    simp [handleParseResult, hz]
  · exact ⟨rfl, rfl, rfl⟩

theorem claim_C8_witness :
    parseSQL "" = [] ∧
    (handleParse { sqlInput := "", parsedTables := [], viewMode := ViewMode.EDITOR,
                   error := none }).error = some noTablesMessage :=
  ⟨by decide,
    ((claim_C8 { sqlInput := "", parsedTables := [], viewMode := ViewMode.EDITOR,
                 error := none }).1 (by decide)).2.1⟩

/-- C9: `parseSQL` is total — on every input it returns the filter-map of
`parseBlock` over the candidate blocks — and `handleParse` can never
surface the catch-branch "failed to parse" message. -/
theorem claim_C9 :
    (∀ sql : String,
      parseSQL sql = ((splitCT sql.data []).drop 1).filterMap parseBlock) ∧
    (∀ st : AppState,
      handleParse st = handleParseResult st (Except.ok (parseSQL st.sqlInput)) ∧
      (handleParse st).error ≠ some failedParseMessage) := by
  constructor
  · intro sql
    rw [parseSQL, parseSQLBlocks_eq]
    rfl
  · intro st
    refine ⟨rfl, ?_⟩
    rw [handleParse]
    simp only [handleParseResult]
    split
    · show some noTablesMessage ≠ some failedParseMessage
      decide
    · show (none : Option String) ≠ some failedParseMessage
      simp

/-- C10: the column parser emits at most one column per physical line of a
table body; a single-line body keeps only the first declaration on the
line, while the same declarations on separate lines each yield a column. -/
theorem claim_C10 :
    (∀ (pks : List String) (body : List Char),
      (parseColumns pks body).length ≤ (splitOnChar '\n' body).length) ∧
    parseSQL "CREATE TABLE t (a int, b int)" =
      [{ id := "t", name := "t", comment := "",
         columns := [{ name := "a", type := "int", comment := "",
                       isPrimaryKey := false, isNullable := true }] }] ∧
    parseSQL "CREATE TABLE t (a int,\nb int)" =
      [{ id := "t", name := "t", comment := "",
         columns := [{ name := "a", type := "int", comment := "",
                       isPrimaryKey := false, isNullable := true },
                     { name := "b", type := "int", comment := "",
                       isPrimaryKey := false, isNullable := true }] }] :=
  ⟨fun _ body => filterMap_length_le _ _, by decide, by decide⟩

/-- Column names excluded from relationship inference (`IGNORED_FK_COLUMNS`). -/
def IGNORED_FK_COLUMNS : List String :=
  ["COMPANY", "TRAN_TIMESTAMP", "USER_ID", "CREATE_USER_ID",
   "LAST_CHANGE_USER_ID", "APPR_USER_ID", "AUTH_USER_ID", "CREATE_DATE",
   "UPDATE_DATE", "LAST_CHANGE_DATE", "TRAN_DATE", "RUN_DATE", "JOB_RUN_ID",
   "BATCH_NO", "REMARK", "REMARK1", "REMARK2", "REMARK3", "ERROR_CODE",
   "ERROR_DESC"]

/-- A directed relationship edge: from the referencing table to the owning
table, annotated with the column name that triggered the inference. -/
structure RelEdge where
  source : String
  target : String
  column : String
deriving DecidableEq, Repr

/-- `Map.get` on the string-keyed map model (first matching key). -/
def mapGet : List (String × String) → String → Option String
  | [], _ => none
  | (k, v) :: m, k2 => if k2 = k then some v else mapGet m k2

/-- `Map.set` on the string-keyed map model: replace the value of an
existing key, or append a new entry. -/
def mapSet : List (String × String) → String → String → List (String × String)
  | [], k, v => [(k, v)]
  | (k0, v0) :: m, k, v =>
    if k0 = k then (k0, v) :: m else (k0, v0) :: mapSet m k v

/-- Registration of one column into the candidate key-provider mapping
(the inner body of the `pkMap` construction loop). -/
def registerCol (tname tid : String) (m : List (String × String))
    (c : ColumnDefinition) : List (String × String) :=
  if c.isPrimaryKey && !(IGNORED_FK_COLUMNS.contains c.name) then
    if asciiUpper c.name = "ID" then m
    else if c.name = "CLIENT_NO" ∧ tname = "cif_client" then mapSet m c.name tid
    else if (mapGet m c.name).isSome then m
    else mapSet m c.name tid
  else m

/-- Registration of all columns of one table into the mapping. -/
def registerTable (m : List (String × String)) (t : TableDefinition) :
    List (String × String) :=
  t.columns.foldl (registerCol t.name t.id) m

/-- The candidate key-provider mapping `pkMap` built over the whole schema. -/
def buildPkMap (tables : List TableDefinition) : List (String × String) :=
  tables.foldl registerTable []

/-- A column qualifies as a key provider: primary key, not excluded,
and not named `ID` case-insensitively. -/
def goodCol (c : ColumnDefinition) : Bool :=
  c.isPrimaryKey && !(IGNORED_FK_COLUMNS.contains c.name) &&
    !(asciiUpper c.name == "ID")

/-- A table offers column name `n` as a key: some qualifying column of the
table is named `n`. -/
def qualifies (t : TableDefinition) (n : String) : Bool :=
  t.columns.any fun c => c.name == n && goodCol c

/-- Specification-side owner of a column name, following the spec text:
the first table in schema order with a qualifying column of that name,
except that `CLIENT_NO` offered by the table named `cif_client` is owned
by that table regardless of encounter order. -/
def pkOwnerSpec (tables : List TableDefinition) (n : String) : Option String :=
  if n = "CLIENT_NO" ∧
      tables.any (fun t => t.name == "cif_client" && qualifies t n) then
    (tables.find? fun t => t.name == "cif_client" && qualifies t n).map
      (fun t => t.id)
  else
    (tables.find? fun t => qualifies t n).map (fun t => t.id)

/-- Edge emission for one column of one table (the inner body of the edge
construction loop): skip excluded names, look the name up in `pkMap`, and
emit an edge unless the owning id is falsy or equals the current table. -/
def edgeFor (m : List (String × String)) (t : TableDefinition)
    (c : ColumnDefinition) : Option RelEdge :=
  if IGNORED_FK_COLUMNS.contains c.name then none
  else
    match mapGet m c.name with
    | some tid =>
      if tid ≠ "" ∧ tid ≠ t.id then
        some { source := t.id, target := tid, column := c.name }
      else none
    | none => none

/-- The inferred relationship edges of a schema. -/
def inferEdges (tables : List TableDefinition) : List RelEdge :=
  let m := buildPkMap tables
  tables.foldl (fun acc t => acc ++ t.columns.filterMap (edgeFor m t)) []

/-- Specification-side edge list: one edge per (table, column) pair whose
column is not excluded, whose name is a key of the mapping, and whose
owner differs from the current table; from the current table to the owner,
carrying the column name; no de-duplication. -/
def inferEdgesSpec (tables : List TableDefinition) : List RelEdge :=
  let m := buildPkMap tables
  tables.foldl
    (fun acc t =>
      acc ++
        ((t.columns.filter fun c =>
            !(IGNORED_FK_COLUMNS.contains c.name) &&
              ((mapGet m c.name).map (fun tid => !(tid == t.id))).getD false).map
          fun c =>
            { source := t.id, target := (mapGet m c.name).getD "",
              column := c.name }))
    []

theorem mapGet_mapSet (m : List (String × String)) (k v k2 : String) :
    mapGet (mapSet m k v) k2 = if k2 = k then some v else mapGet m k2 := by
  induction m with
  | nil => simp [mapSet, mapGet]
  | cons p m ih =>
    obtain ⟨k0, v0⟩ := p
    simp only [mapSet]
    by_cases h0 : k0 = k
    · subst h0
      simp only [if_pos rfl, mapGet]
      by_cases h2 : k2 = k0 <;> simp [h2]
    · rw [if_neg h0]
      simp only [mapGet]
      by_cases h2 : k2 = k0
      · subst h2
        have hk : ¬k2 = k := fun h => h0 (h ▸ rfl)
        simp [hk]
      · simp [h2, ih]

theorem registerCol_get (tname tid : String) (m : List (String × String))
    (c : ColumnDefinition) (n : String) :
    mapGet (registerCol tname tid m c) n =
      if c.name = n ∧ goodCol c then
        (if c.name = "CLIENT_NO" ∧ tname = "cif_client" then some tid
         else
           match mapGet m n with
           | some v => some v
           | none => some tid)
      else mapGet m n := by
  unfold registerCol
  by_cases hb1 : (c.isPrimaryKey && !(IGNORED_FK_COLUMNS.contains c.name)) = true
  · rw [if_pos hb1]
    by_cases hb2 : asciiUpper c.name = "ID"
    · rw [if_pos hb2]
      have hg : goodCol c = false := by
        simp [goodCol, hb2]
      simp [hg]
    · rw [if_neg hb2]
      have hg : goodCol c = true := by
        simp only [goodCol, hb1, Bool.true_and, Bool.not_eq_eq_eq_not,
          Bool.not_true, beq_eq_false_iff_ne, ne_eq]
        exact hb2
      by_cases hb3 : c.name = "CLIENT_NO" ∧ tname = "cif_client"
      · rw [if_pos hb3, mapGet_mapSet]
        by_cases hn : c.name = n
        · subst hn
          simp [hg, hb3]
        · have hn2 : ¬n = c.name := fun h => hn h.symm
          simp [hn, hn2]
      · rw [if_neg hb3]
        by_cases hb4 : (mapGet m c.name).isSome = true
        · rw [if_pos hb4]
          by_cases hn : c.name = n
          · subst hn
            obtain ⟨v, hv⟩ := Option.isSome_iff_exists.mp hb4
            simp [hg, hb3, hv]
          · simp [hn]
        · rw [if_neg hb4, mapGet_mapSet]
          by_cases hn : c.name = n
          · subst hn
            have hnone : mapGet m c.name = none := Option.not_isSome_iff_eq_none.mp hb4
            simp [hg, hb3, hnone]
          · have hn2 : ¬n = c.name := fun h => hn h.symm
            simp [hn, hn2]
  · rw [if_neg hb1]
    have hb1f : (c.isPrimaryKey && !(IGNORED_FK_COLUMNS.contains c.name)) = false :=
      Bool.eq_false_iff.mpr (fun h => hb1 h)
    have hg : goodCol c = false := by
      unfold goodCol
      rw [hb1f, Bool.false_and]
    simp [hg]

theorem registerCols_get (tname tid n : String) :
    ∀ (cols : List ColumnDefinition) (m : List (String × String)),
      mapGet (cols.foldl (registerCol tname tid) m) n =
        if n = "CLIENT_NO" ∧ tname = "cif_client" ∧
            cols.any (fun c => c.name == n && goodCol c) then some tid
        else
          match mapGet m n with
          | some v => some v
          | none =>
            if cols.any (fun c => c.name == n && goodCol c) then some tid
            else none := by
  intro cols
  induction cols with
  | nil =>
    intro m
    simp only [List.foldl_nil, List.any_nil]
    cases hm : mapGet m n <;> simp [hm]
  | cons c cols ih =>
    intro m
    rw [List.foldl_cons, ih, registerCol_get]
    simp only [List.any_cons]
    by_cases hq : c.name = n ∧ goodCol c = true
    · obtain ⟨hcn, hg⟩ := hq
      have hcq : (c.name == n && goodCol c) = true := by simp [hcn, hg]
      by_cases ho : c.name = "CLIENT_NO" ∧ tname = "cif_client"
      · have hn1 : n = "CLIENT_NO" := hcn.symm.trans ho.1
        by_cases ha : cols.any (fun c => c.name == n && goodCol c) = true
        · simp [hcn, hg, hn1, ho.2, hcq, ha]
        · cases hmg : mapGet m n with
          | some v => simp [hcn, hg, hn1, ho.2, hcq, ha, hmg]
          | none => simp [hcn, hg, hn1, ho.2, hcq, ha, hmg]
      · rcases not_and_or.mp ho with h | h
        · have hn : ¬n = "CLIENT_NO" := fun he => h (hcn.trans he)
          cases hmg : mapGet m n <;> simp [hcn, hg, hcq, hn, hmg]
        · cases hmg : mapGet m n <;> simp [hcn, hg, hcq, h, hmg]
    · have hcq : (c.name == n && goodCol c) = false := by
        rcases not_and_or.mp hq with h | h
        · simp [h]
        · simp [Bool.eq_false_iff.mpr h]
      cases hmg : mapGet m n <;> simp [hq, hcq, hmg]

theorem registerTables_get :
    ∀ (tables : List TableDefinition) (m : List (String × String)) (n : String),
      tables.countP (fun t => t.name == "cif_client") ≤ 1 →
      mapGet (tables.foldl registerTable m) n =
        if n = "CLIENT_NO" ∧
            tables.any (fun t => t.name == "cif_client" && qualifies t n) then
          (tables.find? fun t => t.name == "cif_client" && qualifies t n).map
            (fun t => t.id)
        else
          match mapGet m n with
          | some v => some v
          | none => (tables.find? fun t => qualifies t n).map (fun t => t.id) := by
  intro tables
  induction tables with
  | nil =>
    intro m n _
    simp only [List.foldl_nil, List.any_nil, List.find?_nil]
    cases hm : mapGet m n <;> simp [hm]
  | cons t tables ih =>
    intro m n hcount
    rw [List.foldl_cons]
    have hcount2 : tables.countP (fun t => t.name == "cif_client") ≤ 1 := by
      rw [List.countP_cons] at hcount
      omega
    rw [ih (registerTable m t) n hcount2]
    rw [show registerTable m t = t.columns.foldl (registerCol t.name t.id) m from rfl]
    rw [registerCols_get t.name t.id n t.columns m]
    by_cases hA : t.name = "cif_client"
    · have hAt : (t.name == "cif_client") = true := by simp [hA]
      by_cases hQ : qualifies t n = true
      · have hQx : (t.columns.any fun c => c.name == n && goodCol c) = true := hQ
        have hPt : (t.name == "cif_client" && qualifies t n) = true := by
          rw [hAt, hQ]; rfl
        by_cases hB : n = "CLIENT_NO"
        · have h0 : tables.countP (fun t2 => t2.name == "cif_client") = 0 := by
            rw [List.countP_cons] at hcount
            simp only [hAt, if_pos] at hcount
            omega
          have hZero :
              (tables.any fun t => t.name == "cif_client" && qualifies t n) = false := by
            rw [List.any_eq_false]
            intro t2 ht2
            have hnc := List.countP_eq_zero.mp h0 t2 ht2
            simp only [Bool.and_eq_true, not_and]
            intro hc _
            exact hnc hc
          have hover : n = "CLIENT_NO" ∧ t.name = "cif_client" ∧
              (t.columns.any fun c => c.name == n && goodCol c) = true := ⟨hB, hA, hQx⟩
          rw [if_pos hover]
          rw [if_neg (fun hcon => Bool.false_ne_true (hZero.symm.trans hcon.2))]
          have hC2 : n = "CLIENT_NO" ∧
              ((t :: tables).any fun t => t.name == "cif_client" && qualifies t n) = true :=
            ⟨hB, by rw [List.any_cons, hPt, Bool.true_or]⟩
          rw [if_pos hC2]
          simp only [List.find?_cons, hPt]
          rfl
        · have hnCov : ¬(n = "CLIENT_NO" ∧ t.name = "cif_client" ∧
              (t.columns.any fun c => c.name == n && goodCol c) = true) :=
            fun hcon => hB hcon.1
          have hnC1 : ¬(n = "CLIENT_NO" ∧
              (tables.any fun t => t.name == "cif_client" && qualifies t n) = true) :=
            fun hcon => hB hcon.1
          have hnC2 : ¬(n = "CLIENT_NO" ∧
              ((t :: tables).any fun t => t.name == "cif_client" && qualifies t n) = true) :=
            fun hcon => hB hcon.1
          rw [if_neg hnCov, if_neg hnC1, if_neg hnC2]
          cases hmg : mapGet m n with
          | some v => rfl
          | none =>
            rw [if_pos hQx]
            simp only [List.find?_cons, hQ]
            rfl
      · have hQf : (t.columns.any fun c => c.name == n && goodCol c) = false :=
          Bool.eq_false_iff.mpr hQ
        have hnQt : ¬(t.name == "cif_client" && qualifies t n) = true :=
          fun h => hQ (Bool.and_eq_true .. ▸ h).2
        have hPtf : (t.name == "cif_client" && qualifies t n) = false :=
          Bool.eq_false_iff.mpr hnQt
        have hnCov : ¬(n = "CLIENT_NO" ∧ t.name = "cif_client" ∧
            (t.columns.any fun c => c.name == n && goodCol c) = true) :=
          fun hcon => hQ hcon.2.2
        have hanyEq : ((t :: tables).any fun t => t.name == "cif_client" && qualifies t n) =
            (tables.any fun t => t.name == "cif_client" && qualifies t n) := by
          rw [List.any_cons, hPtf, Bool.false_or]
        by_cases hC1 : n = "CLIENT_NO" ∧
            (tables.any fun t => t.name == "cif_client" && qualifies t n) = true
        · have hC2 : n = "CLIENT_NO" ∧
              ((t :: tables).any fun t => t.name == "cif_client" && qualifies t n) = true :=
            ⟨hC1.1, by rw [hanyEq]; exact hC1.2⟩
          rw [if_pos hC1, if_pos hC2]
          simp only [List.find?_cons, hPtf]
        · have hnC2 : ¬(n = "CLIENT_NO" ∧
              ((t :: tables).any fun t => t.name == "cif_client" && qualifies t n) = true) :=
            fun hcon => hC1 ⟨hcon.1, by rw [← hanyEq]; exact hcon.2⟩
          rw [if_neg hnCov, if_neg hC1, if_neg hnC2]
          cases hmg : mapGet m n with
          | some v => rfl
          | none =>
            rw [if_neg (show ¬(t.columns.any fun c => c.name == n && goodCol c) = true
              from fun h => hQ h)]
            have hQff : qualifies t n = false := Bool.eq_false_iff.mpr hQ
            simp only [List.find?_cons, hQff]
    · have hAt : (t.name == "cif_client") = false := by simp [hA]
      have hPtf : (t.name == "cif_client" && qualifies t n) = false := by
        rw [hAt, Bool.false_and]
      have hnCov : ¬(n = "CLIENT_NO" ∧ t.name = "cif_client" ∧
          (t.columns.any fun c => c.name == n && goodCol c) = true) :=
        fun hcon => hA hcon.2.1
      have hanyEq : ((t :: tables).any fun t => t.name == "cif_client" && qualifies t n) =
          (tables.any fun t => t.name == "cif_client" && qualifies t n) := by
        rw [List.any_cons, hPtf, Bool.false_or]
      by_cases hC1 : n = "CLIENT_NO" ∧
          (tables.any fun t => t.name == "cif_client" && qualifies t n) = true
      · have hC2 : n = "CLIENT_NO" ∧
            ((t :: tables).any fun t => t.name == "cif_client" && qualifies t n) = true :=
          ⟨hC1.1, by rw [hanyEq]; exact hC1.2⟩
        rw [if_pos hC1, if_pos hC2]
        simp only [List.find?_cons, hPtf]
      · have hnC2 : ¬(n = "CLIENT_NO" ∧
            ((t :: tables).any fun t => t.name == "cif_client" && qualifies t n) = true) :=
          fun hcon => hC1 ⟨hcon.1, by rw [← hanyEq]; exact hcon.2⟩
        rw [if_neg hnCov, if_neg hC1, if_neg hnC2]
        cases hmg : mapGet m n with
        | some v => rfl
        | none =>
          by_cases hQ2 : qualifies t n = true
          · rw [if_pos (show (t.columns.any fun c => c.name == n && goodCol c) = true from hQ2)]
            simp only [List.find?_cons, hQ2]
            rfl
          · rw [if_neg (show ¬(t.columns.any fun c => c.name == n && goodCol c) = true
              from fun h => hQ2 h)]
            have hQ2f : qualifies t n = false := Bool.eq_false_iff.mpr hQ2
            simp only [List.find?_cons, hQ2f]

/-- C4: the candidate key-provider mapping registers a column name to a
table only for primary-key columns that are not excluded and not named
`ID` case-insensitively; the first table in schema order owns a contested
name, except that `CLIENT_NO` offered by the table named `cif_client` is
owned by that table regardless of encounter order. -/
theorem claim_C4 :
    ∀ (tables : List TableDefinition) (n : String),
      tables.countP (fun t => t.name == "cif_client") ≤ 1 →
      mapGet (buildPkMap tables) n = pkOwnerSpec tables n :=
  fun tables n h => registerTables_get tables [] n h

theorem claim_C4_witness :
    ([{ id := "t_detail", name := "t_detail", comment := "",
        columns := [{ name := "CLIENT_NO", type := "int", comment := "",
                      isPrimaryKey := true, isNullable := true }] },
      { id := "cif_client", name := "cif_client", comment := "",
        columns := [{ name := "CLIENT_NO", type := "int", comment := "",
                      isPrimaryKey := true, isNullable := true }] }] :
      List TableDefinition).countP (fun t => t.name == "cif_client") ≤ 1 ∧
    mapGet (buildPkMap
      [{ id := "t_detail", name := "t_detail", comment := "",
         columns := [{ name := "CLIENT_NO", type := "int", comment := "",
                       isPrimaryKey := true, isNullable := true }] },
       { id := "cif_client", name := "cif_client", comment := "",
         columns := [{ name := "CLIENT_NO", type := "int", comment := "",
                       isPrimaryKey := true, isNullable := true }] }]) "CLIENT_NO" =
    pkOwnerSpec
      [{ id := "t_detail", name := "t_detail", comment := "",
         columns := [{ name := "CLIENT_NO", type := "int", comment := "",
                       isPrimaryKey := true, isNullable := true }] },
       { id := "cif_client", name := "cif_client", comment := "",
         columns := [{ name := "CLIENT_NO", type := "int", comment := "",
                       isPrimaryKey := true, isNullable := true }] }] "CLIENT_NO" :=
  ⟨by decide,
    claim_C4
      [{ id := "t_detail", name := "t_detail", comment := "",
         columns := [{ name := "CLIENT_NO", type := "int", comment := "",
                       isPrimaryKey := true, isNullable := true }] },
       { id := "cif_client", name := "cif_client", comment := "",
         columns := [{ name := "CLIENT_NO", type := "int", comment := "",
                       isPrimaryKey := true, isNullable := true }] }]
      "CLIENT_NO" (by decide)⟩

theorem registerCols_val {tname tid n v : String} :
    ∀ (cols : List ColumnDefinition) (m : List (String × String)),
      mapGet (cols.foldl (registerCol tname tid) m) n = some v →
      mapGet m n = some v ∨ v = tid := by
  intro cols
  induction cols with
  | nil => intro m h; exact Or.inl h
  | cons c cols ih =>
    intro m h
    rw [List.foldl_cons] at h
    rcases ih (registerCol tname tid m c) h with h2 | h2
    · rw [registerCol_get] at h2
      split at h2
      · split at h2
        · exact Or.inr (Option.some.inj h2).symm
        · split at h2
          next v2 hv2 => exact Or.inl (hv2.trans h2)
          next hv2 => exact Or.inr (Option.some.inj h2).symm
      · exact Or.inl h2
    · exact Or.inr h2

theorem buildPkMap_val {n v : String} :
    ∀ (tables : List TableDefinition) (m : List (String × String)),
      mapGet (tables.foldl registerTable m) n = some v →
      mapGet m n = some v ∨ ∃ t, t ∈ tables ∧ t.id = v := by
  intro tables
  induction tables with
  | nil => intro m h; exact Or.inl h
  | cons t tables ih =>
    intro m h
    rw [List.foldl_cons] at h
    rcases ih (registerTable m t) h with h2 | h2
    · rcases registerCols_val t.columns m h2 with h3 | h3
      · exact Or.inl h3
      · exact Or.inr ⟨t, List.mem_cons_self t tables, h3.symm⟩
    · obtain ⟨t2, ht2, hv⟩ := h2
      exact Or.inr ⟨t2, List.mem_cons_of_mem t ht2, hv⟩

theorem foldl_append_congr {α β : Type} (f g : α → List β) :
    ∀ (l : List α) (acc : List β), (∀ a ∈ l, f a = g a) →
      l.foldl (fun acc a => acc ++ f a) acc =
        l.foldl (fun acc a => acc ++ g a) acc := by
  intro l
  induction l with
  | nil => intro acc _; rfl
  | cons a l ih =>
    intro acc h
    rw [List.foldl_cons, List.foldl_cons, h a (List.mem_cons_self a l),
      ih (acc ++ g a) (fun x hx => h x (List.mem_cons_of_mem a hx))]

theorem mem_foldl_append {α β : Type} (f : α → List β) :
    ∀ (l : List α) (acc : List β) (b : β),
      b ∈ l.foldl (fun acc a => acc ++ f a) acc ↔
        b ∈ acc ∨ ∃ a, a ∈ l ∧ b ∈ f a := by
  intro l
  induction l with
  | nil => intro acc b; simp [List.foldl_nil]
  | cons a l ih =>
    intro acc b
    rw [List.foldl_cons, ih]
    simp only [List.mem_append, List.mem_cons]
    constructor
    · rintro (⟨hb | hb⟩ | ⟨x, hx, hb⟩)
      · exact Or.inl hb
      · exact Or.inr ⟨a, Or.inl rfl, hb⟩
      · exact Or.inr ⟨x, Or.inr hx, hb⟩
    · rintro (hb | ⟨x, hx | hx, hb⟩)
      · exact Or.inl (Or.inl hb)
      · exact Or.inl (Or.inr (hx ▸ hb))
      · exact Or.inr ⟨x, hx, hb⟩

theorem filterMap_eq_map_filter {α β : Type} (f : α → Option β) (p : α → Bool)
    (g : α → β) :
    ∀ l : List α, (∀ a ∈ l, f a = if p a then some (g a) else none) →
      l.filterMap f = (l.filter p).map g := by
  intro l
  induction l with
  | nil => intro _; rfl
  | cons a l ih =>
    intro h
    rw [List.filterMap_cons, List.filter_cons, h a (List.mem_cons_self a l)]
    by_cases hp : p a = true
    · rw [if_pos hp, if_pos hp, List.map_cons,
        ih (fun x hx => h x (List.mem_cons_of_mem a hx))]
    · rw [if_neg hp, if_neg hp, ih (fun x hx => h x (List.mem_cons_of_mem a hx))]

theorem matchName_ne_empty {block : List Char} {nm : String}
    (h : matchName block = some nm) : nm ≠ "" := by
  simp only [matchName] at h
  split at h
  · exact Option.noConfusion h
  next hne =>
    have h2 := Option.some.inj h
    subst h2
    intro hcon
    apply hne
    rw [List.isEmpty_iff]
    exact congrArg String.data hcon

theorem parseBlock_id_ne {block : List Char} {t : TableDefinition}
    (h : parseBlock block = some t) : t.id ≠ "" := by
  simp only [parseBlock] at h
  split at h
  · exact Option.noConfusion h
  next nm hnm =>
    split at h
    · exact Option.noConfusion h
    next rest hrest =>
      split at h
      · exact Option.noConfusion h
      next body after hscan =>
        have h2 := Option.some.inj h
        subst h2
        exact matchName_ne_empty hnm

theorem parseSQL_id_ne {sql : String} {t : TableDefinition}
    (h : t ∈ parseSQL sql) : t.id ≠ "" := by
  rw [parseSQL, parseSQLBlocks_eq, List.nil_append] at h
  obtain ⟨b, _, hb⟩ := List.mem_filterMap.mp h
  exact parseBlock_id_ne hb

/-- C3: the inference stage emits exactly one directed edge per
(table, column) pair whose column is not excluded, whose name is a key of
the candidate mapping, and whose owner differs from the current table;
each edge runs from the current table to the owner and carries the column
name, no edge is a self-loop, and no de-duplication is performed. -/
theorem claim_C3 :
    (∀ (sql : String) (t : TableDefinition), t ∈ parseSQL sql → t.id ≠ "") ∧
    ∀ tables : List TableDefinition, (∀ t ∈ tables, t.id ≠ "") →
      inferEdges tables = inferEdgesSpec tables ∧
      ∀ e ∈ inferEdges tables, e.source ≠ e.target := by
  refine ⟨fun sql t ht => parseSQL_id_ne ht, ?_⟩
  intro tables hid
  constructor
  · simp only [inferEdges, inferEdgesSpec]
    apply foldl_append_congr
    intro t ht
    apply filterMap_eq_map_filter
    intro c hc
    rw [edgeFor]
    by_cases hig : IGNORED_FK_COLUMNS.contains c.name = true
    · rw [if_pos hig]
      have hfalse :
          (!(IGNORED_FK_COLUMNS.contains c.name) &&
            ((mapGet (buildPkMap tables) c.name).map
              (fun tid => !(tid == t.id))).getD false) = false := by
        rw [hig]
        rfl
      rw [if_neg (fun h => Bool.false_ne_true (hfalse.symm.trans h))]
    · rw [if_neg hig]
      have hcf : IGNORED_FK_COLUMNS.contains c.name = false :=
        Bool.eq_false_iff.mpr hig
      cases hmg : mapGet (buildPkMap tables) c.name with
      | none => simp
      | some tid =>
        have htid : tid ≠ "" := by
          rcases buildPkMap_val tables [] hmg with h3 | h3
          · exact absurd h3 (by simp [mapGet])
          · obtain ⟨t2, ht2, hv⟩ := h3
            exact hv ▸ hid t2 ht2
        by_cases hne : tid = t.id
        · simp [hne]
        · simp [hcf, hne, htid]
          simpa using hcf
  · intro e he
    simp only [inferEdges] at he
    rw [mem_foldl_append] at he
    rcases he with he | ⟨t, ht, hc⟩
    · simp at he
    · obtain ⟨c, hcmem, hce⟩ := List.mem_filterMap.mp hc
      rw [edgeFor] at hce
      split at hce
      · exact Option.noConfusion hce
      · split at hce
        next tid heq =>
          split at hce
          next hB =>
            have he2 := (Option.some.inj hce).symm
            subst he2
            exact fun h => hB.2 h.symm
          next hB => exact Option.noConfusion hce
        next heq => exact Option.noConfusion hce

theorem claim_C3_witness :
    inferEdges
      [{ id := "t1", name := "t1", comment := "",
         columns := [{ name := "A", type := "int", comment := "",
                       isPrimaryKey := true, isNullable := false }] },
       { id := "t2", name := "t2", comment := "",
         columns := [{ name := "A", type := "int", comment := "",
                       isPrimaryKey := false, isNullable := true }] }] =
    inferEdgesSpec
      [{ id := "t1", name := "t1", comment := "",
         columns := [{ name := "A", type := "int", comment := "",
                       isPrimaryKey := true, isNullable := false }] },
       { id := "t2", name := "t2", comment := "",
         columns := [{ name := "A", type := "int", comment := "",
                       isPrimaryKey := false, isNullable := true }] }] :=
  (claim_C3.2
    [{ id := "t1", name := "t1", comment := "",
       columns := [{ name := "A", type := "int", comment := "",
                     isPrimaryKey := true, isNullable := false }] },
     { id := "t2", name := "t2", comment := "",
       columns := [{ name := "A", type := "int", comment := "",
                     isPrimaryKey := false, isNullable := true }] }]
    (by decide)).1

/-- C5: no relationship edge is ever produced via a column name that is in
the fixed exclusion set, regardless of whether a column of that name is a
primary key in some table of the schema. -/
theorem claim_C5 :
    ∀ (tables : List TableDefinition) (e : RelEdge),
      e ∈ inferEdges tables → IGNORED_FK_COLUMNS.contains e.column = false := by
  intro tables e he
  simp only [inferEdges] at he
  rw [mem_foldl_append] at he
  rcases he with he | ⟨t, ht, hc⟩
  · simp at he
  · obtain ⟨c, hcmem, hce⟩ := List.mem_filterMap.mp hc
    rw [edgeFor] at hce
    split at hce
    · exact Option.noConfusion hce
    next hig =>
      split at hce
      next tid heq =>
        split at hce
        next hB =>
          have he2 := (Option.some.inj hce).symm
          subst he2
          exact Bool.eq_false_iff.mpr hig
        next hB => exact Option.noConfusion hce
      next heq => exact Option.noConfusion hce

theorem claim_C5_witness :
    ({ source := "t2", target := "t1", column := "A" } : RelEdge) ∈
      inferEdges
        [{ id := "t1", name := "t1", comment := "",
           columns := [{ name := "A", type := "int", comment := "",
                         isPrimaryKey := true, isNullable := false }] },
         { id := "t2", name := "t2", comment := "",
           columns := [{ name := "A", type := "int", comment := "",
                         isPrimaryKey := false, isNullable := true }] }] ∧
    IGNORED_FK_COLUMNS.contains
      ({ source := "t2", target := "t1", column := "A" } : RelEdge).column = false :=
  ⟨by decide,
    claim_C5
      [{ id := "t1", name := "t1", comment := "",
         columns := [{ name := "A", type := "int", comment := "",
                       isPrimaryKey := true, isNullable := false }] },
       { id := "t2", name := "t2", comment := "",
         columns := [{ name := "A", type := "int", comment := "",
                       isPrimaryKey := false, isNullable := true }] }]
      { source := "t2", target := "t1", column := "A" } (by decide)⟩

/-- `Map.get` on the adjacency map (string key, set of neighbor ids). -/
def adjGet : List (String × List String) → String → Option (List String)
  | [], _ => none
  | (k, v) :: m, k2 => if k2 = k then some v else adjGet m k2

/-- `if (!map.has(k)) map.set(k, new Set())`. -/
def adjInsert (m : List (String × List String)) (k : String) :
    List (String × List String) :=
  if (adjGet m k).isSome then m else m ++ [(k, [])]

/-- `map.get(k)?.add(v)`: add `v` to the neighbor set of `k` when the
entry exists; no-op otherwise. -/
def adjAddNeighbor (m : List (String × List String)) (k v : String) :
    List (String × List String) :=
  m.map fun p =>
    if p.1 = k then (p.1, if p.2.contains v then p.2 else p.2 ++ [v]) else p

/-- One step of the adjacency fold: register both endpoints of an edge as
each other's neighbors. -/
def adjStep (m : List (String × List String)) (e : RelEdge) :
    List (String × List String) :=
  let m1 := adjInsert m e.source
  let m2 := adjInsert m1 e.target
  let m3 := adjAddNeighbor m2 e.source e.target
  adjAddNeighbor m3 e.target e.source

/-- The undirected Adjacency Index built from the edge list. -/
def buildAdjacency (edges : List RelEdge) : List (String × List String) :=
  edges.foldl adjStep []

/-- `adjacency.get(s)?.has(id)`, with a missing entry read as `false`. -/
def adjHas (m : List (String × List String)) (s id : String) : Bool :=
  ((adjGet m s).map (fun set => set.contains id)).getD false

/-- The two user interactions driving the selection machine. -/
inductive SelEvent where
  | clickNode (id : String)
  | clickPane
deriving DecidableEq, Repr

/-- `onNodeClick` / `onPaneClick`: the selection transition. -/
def selStep (_sel : Option String) (ev : SelEvent) : Option String :=
  match ev with
  | SelEvent.clickNode id => some id
  | SelEvent.clickPane => none

/-- The selection reached from the initial Nothing-Selected state by a
sequence of events. -/
def runSel (events : List SelEvent) : Option String :=
  events.foldl selStep none

/-- An event is valid when any clicked node is one of the diagram's nodes. -/
def validEvent (nodeIds : List String) : SelEvent → Bool
  | SelEvent.clickNode id => nodeIds.contains id
  | SelEvent.clickPane => true

/-- The node style derivation: a node is dimmed iff a selection exists and
the node is neither selected nor a neighbor of the selection; the neighbor
test reads the Adjacency Index entry of the selected id and is `false`
when the selected id is falsy (the empty string). -/
def nodeDimmed (adj : List (String × List String)) (sel : Option String)
    (nodeId : String) : Bool :=
  let isSelected := sel == some nodeId
  let isNeighbor :=
    match sel with
    | some s => if s = "" then false else adjHas adj s nodeId
    | none => false
  sel.isSome && !isSelected && !isNeighbor

/-- `isConnected`: a selection exists (and is truthy) and one endpoint of
the edge equals the selected id. -/
def edgeConnected (sel : Option String) (e : RelEdge) : Bool :=
  match sel with
  | some s => if s = "" then false else (e.source == s || e.target == s)
  | none => false

/-- The edge style derivation: connected edges are animated and drawn with
the emphasis stroke; an edge is dimmed iff a selection exists and the edge
is not connected. -/
structure EdgeStyle where
  animated : Bool
  strokeBlue : Bool
  dimmedOpacity : Bool
deriving DecidableEq, Repr

def edgeStyleFor (sel : Option String) (e : RelEdge) : EdgeStyle :=
  let isConnected := edgeConnected sel e
  let shouldDim := sel.isSome && !isConnected
  { animated := isConnected, strokeBlue := isConnected,
    dimmedOpacity := shouldDim }

/-- Claim-side node dimming: a selection exists and the node is neither
the selected table nor present in the Adjacency Index entry of the
selected id. -/
def claimNodeDimmed (adj : List (String × List String)) (sel : Option String)
    (nodeId : String) : Bool :=
  match sel with
  | none => false
  | some s => !(nodeId == s) && !(adjHas adj s nodeId)

/-- Claim-side edge emphasis: a selection exists and one of the edge's
endpoints equals the selected table id. -/
def claimEdgeEmph (sel : Option String) (e : RelEdge) : Bool :=
  match sel with
  | none => false
  | some s => e.source == s || e.target == s

theorem runSel_sound (nodeIds : List String) :
    ∀ (events : List SelEvent) (init : Option String),
      (∀ ev ∈ events, validEvent nodeIds ev = true) →
      (init = none ∨ ∃ id, init = some id ∧ id ∈ nodeIds) →
      events.foldl selStep init = none ∨
        ∃ id, events.foldl selStep init = some id ∧ id ∈ nodeIds := by
  intro events
  induction events with
  | nil => intro init _ hinit; exact hinit
  | cons ev events ih =>
    intro init hval hinit
    rw [List.foldl_cons]
    apply ih
    · intro ev2 hev2
      exact hval ev2 (List.mem_cons_of_mem ev hev2)
    · cases ev with
      | clickPane => exact Or.inl rfl
      | clickNode id =>
        refine Or.inr ⟨id, rfl, ?_⟩
        have := hval (SelEvent.clickNode id) (List.mem_cons_self _ _)
        simpa [validEvent] using this

/-- C6: in every reachable state of the selection machine, a node is
dimmed iff a selection exists and the node is neither the selected table
nor present in the Adjacency Index entry for the selected id; an edge is
emphasized iff a selection exists and one of its endpoints equals the
selected id, and otherwise (with a selection) it is dimmed; with no
selection, no node and no edge is dimmed. -/
theorem claim_C6 :
    ∀ (nodeIds : List String) (events : List SelEvent) (edges : List RelEdge)
      (nodeId : String) (e : RelEdge),
      (∀ id ∈ nodeIds, id ≠ "") →
      (∀ ev ∈ events, validEvent nodeIds ev = true) →
      (nodeDimmed (buildAdjacency edges) (runSel events) nodeId =
        claimNodeDimmed (buildAdjacency edges) (runSel events) nodeId) ∧
      ((edgeStyleFor (runSel events) e).animated = claimEdgeEmph (runSel events) e) ∧
      ((edgeStyleFor (runSel events) e).strokeBlue = claimEdgeEmph (runSel events) e) ∧
      ((edgeStyleFor (runSel events) e).dimmedOpacity =
        ((runSel events).isSome && !(claimEdgeEmph (runSel events) e))) ∧
      (runSel events = none →
        nodeDimmed (buildAdjacency edges) (runSel events) nodeId = false ∧
        (edgeStyleFor (runSel events) e).dimmedOpacity = false) := by
  intro nodeIds events edges nodeId e hids hval
  have hsel := runSel_sound nodeIds events none hval (Or.inl rfl)
  rcases hsel with hnone | ⟨id, hsome, hmem⟩
  · have hnone2 : runSel events = none := hnone
    rw [hnone2]
    simp [nodeDimmed, claimNodeDimmed, edgeStyleFor, edgeConnected, claimEdgeEmph]
  · have hsome2 : runSel events = some id := hsome
    have hid : id ≠ "" := hids id hmem
    rw [hsome2]
    simp only [nodeDimmed, claimNodeDimmed, edgeStyleFor, edgeConnected,
      claimEdgeEmph, Option.isSome_some, Bool.true_and, if_neg hid]
    refine ⟨?_, by trivial, by trivial, by trivial, by simp⟩
    have hbeq : (some id == some nodeId) = (nodeId == id) := by
      by_cases h : id = nodeId
      · subst h; simp
      · have h2 : ¬nodeId = id := fun hh => h hh.symm
        simp [h, h2]
    rw [hbeq]

theorem claim_C6_witness :
    nodeDimmed (buildAdjacency [{ source := "t2", target := "t1", column := "A" }])
      (runSel [SelEvent.clickNode "t1"]) "t2" =
    claimNodeDimmed (buildAdjacency [{ source := "t2", target := "t1", column := "A" }])
      (runSel [SelEvent.clickNode "t1"]) "t2" :=
  (claim_C6 ["t1", "t2"] [SelEvent.clickNode "t1"]
    [{ source := "t2", target := "t1", column := "A" }] "t2"
    { source := "t2", target := "t1", column := "A" }
    (by decide) (by decide)).1
